import Mathlib

/-!
Shallow embedding of the ephemeral token-addressed file-share store
(`app/models/file_share.py`, `app/utils/cleanup.py`, `app/utils/file_utils.py`,
`app/web/admin.py`) and proofs about its registry, eviction sweep, object
store and chunked-upload handler.

Conventions of the embedding:
* instants (`datetime.utcnow()`, stored timestamps) are natural numbers;
  SQLite's `datetime(x) > datetime('now')` comparisons become `Nat` comparisons;
* nullable columns are `Option`;
* the backing SQLite store is a list of rows; a read that may raise an
  exception is modelled by a `Backend` value that is either the row list or
  an error;
* byte strings are lists of naturals.
-/

namespace App

/-- A row of the `file_shares` table / an in-memory `FileShare` object.
Fields mirror `FileShare.__init__` plus the extra columns
(`last_download_attempt`, `last_download_completed`) that only the SQL
UPDATE statements touch. -/
structure FileShare where
  token : String
  recipient_email : String
  files : List String
  created_at : Nat
  expires_at : Option Nat
  downloaded : Bool := false
  download_count : Nat := 0
  downloaded_files : List String := []
  last_download_attempt : Option Nat := none
  last_download_completed : Option Nat := none
deriving DecidableEq

/-- A backing-store access: either the rows are read successfully or the
driver raises (modelled by `err`). -/
inductive Backend (α : Type) where
  | ok : α → Backend α
  | err : Backend α
deriving DecidableEq

/-- `FileShare.is_expired` (file_share.py:311-319): shares with a falsy
`recipient_email` never expire; a missing `expires_at` means not expired;
otherwise expired iff `utcnow() > expires_at`. -/
def FileShare.is_expired (s : FileShare) (now : Nat) : Bool :=
  if s.recipient_email = "" then false
  else
    match s.expires_at with
    | none => false
    | some e => decide (e < now)

/-- `FileShare.get` (file_share.py:126-154): `SELECT ... WHERE token = ?`;
any exception is caught and `None` is returned, exactly as when no row
matches. -/
def FileShare.get (b : Backend (List FileShare)) (token : String) :
    Option FileShare :=
  match b with
  | .err => none
  | .ok rows => rows.find? (fun r => r.token = token)

/-- The WHERE clause `datetime(expires_at) > datetime('now')` used by
`get_all_active` and `get_active_count`.  A NULL `expires_at` compares as
NULL, hence is not selected. -/
def sqlActive (now : Nat) (r : FileShare) : Bool :=
  match r.expires_at with
  | none => false
  | some e => decide (now < e)

/-- `FileShare.get_all_active` (file_share.py:156-179): rows with
`expires_at` strictly in the future; on any exception the accumulated
(empty) list is returned.  `ORDER BY created_at DESC` only permutes the
result and is elided; the claims concern membership. -/
def FileShare.get_all_active (b : Backend (List FileShare)) (now : Nat) :
    List FileShare :=
  match b with
  | .err => []
  | .ok rows => rows.filter (sqlActive now)

/-- `FileShare.get_active_count` (file_share.py:237-252): `SELECT COUNT(*)`
with the same WHERE clause; `0` on exception. -/
def FileShare.get_active_count (b : Backend (List FileShare)) (now : Nat) :
    Nat :=
  match b with
  | .err => 0
  | .ok rows => (rows.filter (sqlActive now)).length

/-- `FileShare.mark_file_downloaded` (file_share.py:340-344): appends the
filename to `downloaded_files` unless already present (then `save()`
persists the same fields). -/
def FileShare.mark_file_downloaded (s : FileShare) (filename : String) :
    FileShare :=
  if filename ∈ s.downloaded_files then s
  else { s with downloaded_files := s.downloaded_files ++ [filename] }

/-- `FileShare.mark_downloaded` (file_share.py:321-338): sets
`downloaded = True`, increments `download_count`, and the UPDATE writes
`last_download_completed = utcnow()`. -/
def FileShare.mark_downloaded (s : FileShare) (now : Nat) : FileShare :=
  { s with downloaded := true, download_count := s.download_count + 1,
           last_download_completed := some now }

/-- `FileShare.mark_download_attempt` (file_share.py:346-360): the UPDATE
writes only `last_download_attempt = utcnow()`. -/
def FileShare.mark_download_attempt (s : FileShare) (now : Nat) : FileShare :=
  { s with last_download_attempt := some now }

/-- `FileShare.mark_downloaded` with its backing-store write made explicit
(file_share.py:321-338): the in-memory object is always mutated first; the
UPDATE is wrapped in try/except, so when the store raises (`dbOk = false`)
the rows are left untouched and the error is only printed. -/
def FileShare.mark_downloaded_db (s : FileShare) (now : Nat) (dbOk : Bool)
    (db : List FileShare) : FileShare × List FileShare :=
  let s1 : FileShare :=
    { s with downloaded := true, download_count := s.download_count + 1 }
  if dbOk then
    (s1, db.map (fun r =>
      if r.token = s.token then
        { r with downloaded := true, download_count := s1.download_count,
                 last_download_completed := some now,
                 downloaded_files := s1.downloaded_files }
      else r))
  else (s1, db)

/-- `FileShare.delete_by_token` (file_share.py:286-309): remove the token's
directory if present (`shutil.rmtree`, which may raise: `rmtreeFails`),
then `DELETE FROM file_shares WHERE token = ?` (which may raise:
`dbFails`); any exception yields `False`, otherwise `True`. -/
def FileShare.delete_by_token (rmtreeFails dbFails : Bool)
    (dirs : List String) (db : List FileShare) (token : String) :
    List String × List FileShare × Bool :=
  if token ∈ dirs then
    if rmtreeFails then (dirs, db, false)
    else
      let dirs1 := dirs.filter (fun d => d ≠ token)
      if dbFails then (dirs1, db, false)
      else (dirs1, db.filter (fun r => r.token ≠ token), true)
  else
    if dbFails then (dirs, db, false)
    else (dirs, db.filter (fun r => r.token ≠ token), true)

/-- The per-directory loop of `cleanup_expired_files` (cleanup.py:66-88):
record found and expired → remove the directory; no record → remove the
orphaned directory; otherwise keep it.  Returns the surviving directories
and the cleaned count.  The `shutil.rmtree` failure branch (caught and
logged, loop continues) is not modelled: removals are assumed to succeed. -/
def sweepDirs (now : Nat) (db : List FileShare) :
    List String → List String × Nat
  | [] => ([], 0)
  | t :: rest =>
    match FileShare.get (.ok db) t with
    | some s =>
      if s.is_expired now then
        let r := sweepDirs now db rest
        (r.1, r.2 + 1)
      else
        let r := sweepDirs now db rest
        (t :: r.1, r.2)
    | none =>
      let r := sweepDirs now db rest
      (r.1, r.2 + 1)

/-- `cleanup_expired_files` (cleanup.py:58-90): enumerate the token
directories, apply the per-directory decision, return the count removed.
The function performs no database writes (its only registry access is the
read-only `FileShare.get`), so the registry component of the result is the
input row list unchanged. -/
def cleanup_expired_files (now : Nat) (db : List FileShare)
    (dirs : List String) : List String × List FileShare × Nat :=
  let r := sweepDirs now db dirs
  (r.1, db, r.2)

/-- Keep-predicate characterizing which directories a sweep leaves behind. -/
def sweepKeeps (now : Nat) (db : List FileShare) (t : String) : Bool :=
  match FileShare.get (.ok db) t with
  | some s => ! s.is_expired now
  | none => false

/-! Concrete shares used by the eviction-sweep and projection claims. -/

/-- (a) an expired share with a recipient. -/
def shareA : FileShare :=
  { token := "a", recipient_email := "ra@example.com", files := ["f.txt"],
    created_at := 0, expires_at := some 50 }

/-- (b) a non-expired share. -/
def shareB : FileShare :=
  { token := "b", recipient_email := "rb@example.com", files := ["g.txt"],
    created_at := 0, expires_at := some 200 }

/-- (c) a pending share with zero files and no recipient, whose stored
`expires_at` lies in the past. -/
def shareC : FileShare :=
  { token := "c", recipient_email := "", files := [],
    created_at := 0, expires_at := some 50 }

/-- Registry holding (a), (b), (c). -/
def sweepDb : List FileShare := [shareA, shareB, shareC]

/-- Store directories for (a), (b), (c) plus (d), an orphaned directory
with no registry record. -/
def sweepStore : List String := ["a", "b", "c", "d"]

/-! ### Object store, `secure_filename` and the chunked-upload handler -/

/-- File contents. -/
abbrev Bytes := List Nat

/-- ASCII whitespace as recognised by Python's `str.split()`. -/
def isAsciiWs (c : Char) : Bool :=
  c = ' ' || c = '\t' || c = '\n' || c = '\r' || c = '\x0b' || c = '\x0c'

/-- The character class kept by werkzeug's filename regex
`[^A-Za-z0-9_.-]` (everything else is removed). -/
def allowedChar (c : Char) : Bool :=
  c.isAlphanum || c = '_' || c = '.' || c = '-'

/-- `str.split()`: split on whitespace runs, dropping empty words. -/
def splitWsAux : List Char → List Char → List (List Char)
  | [], acc => if acc.isEmpty then [] else [acc.reverse]
  | c :: cs, acc =>
    if isAsciiWs c then
      if acc.isEmpty then splitWsAux cs []
      else acc.reverse :: splitWsAux cs []
    else splitWsAux cs (c :: acc)

/-- `str.split()` on a character list. -/
def splitWs (l : List Char) : List (List Char) := splitWsAux l []

/-- `str.strip(chars)`: remove the given characters from both ends. -/
def stripChars (bad : Char → Bool) (l : List Char) : List Char :=
  ((l.dropWhile bad).reverse.dropWhile bad).reverse

/-- The strip set `"._"` of `secure_filename`. -/
def dotUnderscore (c : Char) : Bool := c = '.' || c = '_'

/-- werkzeug's `secure_filename` on POSIX: replace `os.sep` (`'/'`, no
altsep) by spaces, split on whitespace, join with `'_'`, delete every
character outside `[A-Za-z0-9_.-]`, strip `'.'`/`'_'` from both ends.  The
leading NFKD/ASCII normalisation step is the identity on ASCII input and
only ever removes non-ASCII characters here, which the regex deletion
already subsumes; the model is exact on ASCII filenames. -/
def secure_filename (s : String) : String :=
  let l := s.data.map (fun c => if c = '/' then ' ' else c)
  let joined := List.intercalate ['_'] (splitWs l)
  (stripChars dotUnderscore (joined.filter allowedChar)).asString

/-- Big-endian decimal digits of a natural number; reference model for
`Nat.repr` (which is `Nat.toDigitsCore` with fuel). -/
def natDigits (n : Nat) : List Char :=
  if n < 10 then [Nat.digitChar n]
  else natDigits (n / 10) ++ [Nat.digitChar (n % 10)]
decreasing_by exact Nat.div_lt_self (by omega) (by omega)

/-- Value of a big-endian decimal digit string. -/
def digitsVal (l : List Char) : Nat :=
  l.foldl (fun a c => 10 * a + (c.toNat - 48)) 0

/-- `os.path.splitext` on a separator-free name: split at the last dot,
except that a basename consisting only of leading dots up to that dot is
not split (CPython `genericpath._splitext`). -/
def splitextList (l : List Char) : List Char × List Char :=
  match l.reverse.findIdx? (fun c => c = '.') with
  | none => (l, [])
  | some k =>
    if (l.take (l.length - 1 - k)).all (fun c => c = '.') then (l, [])
    else (l.take (l.length - 1 - k), l.drop (l.length - 1 - k))

/-- `os.path.splitext` on strings. -/
def splitext (s : String) : String × String :=
  let p := splitextList s.data
  (p.1.asString, p.2.asString)

/-- The candidate name `f"{name}_{counter}{ext}"` tried by the collision
loop of `save_uploaded_files`. -/
def mkCand (stem ext : String) (counter : Nat) : String :=
  stem ++ "_" ++ Nat.repr counter ++ ext

/-- The `while os.path.exists(file_path)` loop of `save_uploaded_files`
(file_utils.py:21-27), with explicit fuel.  The source loop runs until a
free name is found; with fuel `existing.length + 1` the fuel never runs
out because the candidates are pairwise distinct (proved below), so the
fuel-exhausted fallback value is unreachable. -/
def collideName (existing : List String) (stem ext : String) :
    Nat → Nat → String
  | counter, 0 => mkCand stem ext counter
  | counter, fuel + 1 =>
    if mkCand stem ext counter ∈ existing then
      collideName existing stem ext (counter + 1) fuel
    else mkCand stem ext counter

/-- Collision handling of `save_uploaded_files` (file_utils.py:20-27):
if the desired name exists, try `name_1`, `name_2`, … (suffix inserted
before the extension) until a free name is found. -/
def resolve_collision (existing : List String) (filename : String) :
    String :=
  if filename ∈ existing then
    let p := splitext filename
    collideName existing p.1 p.2 1 (existing.length + 1)
  else filename

/-- Association-list lookup (leftmost binding). -/
def getEntry {κ α : Type} [DecidableEq κ] : List (κ × α) → κ → Option α
  | [], _ => none
  | e :: rest, k => if e.1 = k then some e.2 else getEntry rest k

/-- Association-list overwrite-or-append; models writing a file under a
name: an existing file of that name is replaced. -/
def setEntry {κ α : Type} [DecidableEq κ] : List (κ × α) → κ → α →
    List (κ × α)
  | [], k, v => [(k, v)]
  | e :: rest, k, v =>
    if e.1 = k then (k, v) :: rest else e :: setEntry rest k v

/-- `save_uploaded_files` (file_utils.py:7-32): for each incoming file with
a non-empty original name, sanitize with `secure_filename`, skip it if
nothing remains, otherwise resolve collisions against the token directory
and write the blob.  Returns the final directory contents, the list of
stored names, and the list of filesystem paths written
(`UPLOAD_FOLDER/token/name`). -/
def save_uploaded_files (upload_folder token : String) :
    List (String × Bytes) → List (String × Bytes) →
    List (String × Bytes) × List String × List String
  | [], dir => (dir, [], [])
  | f :: rest, dir =>
    if f.1 = "" then save_uploaded_files upload_folder token rest dir
    else
      let filename := secure_filename f.1
      if filename = "" then save_uploaded_files upload_folder token rest dir
      else
        let final := resolve_collision (dir.map Prod.fst) filename
        let r := save_uploaded_files upload_folder token rest
          (dir ++ [(final, f.2)])
        (r.1, final :: r.2.1,
         (upload_folder ++ "/" ++ token ++ "/" ++ final) :: r.2.2)

/-- Server state seen by the chunked-upload handler: the registry rows,
the object store (token directory → named blobs), and the staging
directory of the current upload session (chunk index → bytes; the
`chunk_{i:05d}` file names are in bijection with the indices). -/
structure SrvState where
  db : List FileShare
  store : List (String × List (String × Bytes))
  staging : List (Int × Bytes)
deriving DecidableEq

/-- Responses of `upload_chunk` (admin.py:324-389): 400 for an invalid
share token, `{done: false}` (200), `{done: true, token}` (200), or the
catch-all 500 when the handler body raises. -/
inductive ChunkResponse where
  | invalidToken
  | pending
  | done (token : String)
  | serverError
deriving DecidableEq

/-- `range(1, total_chunks + 1)` over Python ints: empty when
`total_chunks ≤ 0`. -/
def chunkIndices (n : Int) : List Int :=
  (List.range n.toNat).map (fun k => ((k : Int) + 1))

/-- The assembly loop (admin.py:352-356): concatenate chunks `1..n` in
index order; a missing chunk file raises (modelled as `none`). -/
def assemble (staging : List (Int × Bytes)) (n : Int) : Option Bytes :=
  (chunkIndices n).foldl
    (fun acc i =>
      match acc, getEntry staging i with
      | some bs, some chunk => some (bs ++ chunk)
      | _, _ => none)
    (some [])

/-- `upload_chunk` (admin.py:324-389): sanitize the filename, look up the
share (400 if absent, before any chunk is persisted), save the chunk under
its index (overwriting any prior chunk at that index), and — only when
`chunk_number == total_chunks` — assemble: an empty sanitized filename or
a missing chunk raises (500, staging kept); otherwise the assembled blob
is moved onto `UPLOAD_FOLDER/token/filename` (`shutil.move`, which
replaces an existing file of that name), the name is appended to
`share.files` if absent and saved, staging chunks `1..n` are removed, and
`{done: true, token}` is returned.  Any other chunk is acknowledged with
`{done: false}`. -/
def upload_chunk (st : SrvState) (chunk_number total_chunks : Int)
    (raw_filename share_token : String) (data : Bytes) :
    SrvState × ChunkResponse :=
  let filename := secure_filename raw_filename
  match FileShare.get (.ok st.db) share_token with
  | none => (st, .invalidToken)
  | some share =>
    let staging1 := setEntry st.staging chunk_number data
    if chunk_number = total_chunks then
      if filename = "" then ({ st with staging := staging1 }, .serverError)
      else
        match assemble staging1 total_chunks with
        | none => ({ st with staging := staging1 }, .serverError)
        | some blob =>
          let dir := (getEntry st.store share.token).getD []
          let dir1 := setEntry dir filename blob
          let store1 := setEntry st.store share.token dir1
          let files1 :=
            if filename ∈ share.files then share.files
            else share.files ++ [filename]
          let db1 := st.db.map (fun r =>
            if r.token = share.token then { r with files := files1 } else r)
          let staging2 := staging1.filter
            (fun e => e.1 ∉ chunkIndices total_chunks)
          ({ db := db1, store := store1, staging := staging2 },
           .done share.token)
    else ({ st with staging := staging1 }, .pending)

/-- Well-formedness of `secure_filename` output: non-empty, only
characters from the kept class, and not starting with `'.'` or `'_'`
(both are stripped from the ends). -/
def goodName (s : String) : Prop :=
  s.data ≠ [] ∧ (∀ c ∈ s.data, allowedChar c = true) ∧
  ∀ c rest, s.data = c :: rest → dotUnderscore c = false

/-- A name that stays inside its directory when joined onto it: non-empty,
free of path separators, and not a dot component. -/
def safeComponent (s : String) : Bool :=
  !s.data.isEmpty && s.data.all (fun c => c ≠ '/') && s ≠ "." && s ≠ ".."

/-- A share used by the chunked-upload scenarios: pending, no files yet. -/
def shareT : FileShare :=
  { token := "t", recipient_email := "", files := [],
    created_at := 0, expires_at := some 200 }

/-- A share whose token directory already holds `"a.txt"`. -/
def shareU : FileShare :=
  { token := "t", recipient_email := "", files := ["a.txt"],
    created_at := 0, expires_at := some 200 }

/-- Fresh server state for share `"t"`: empty store, empty staging. -/
def st0 : SrvState := { db := [shareT], store := [], staging := [] }

/-- Server state where chunk 1 of 2 has already been staged. -/
def stHalf : SrvState :=
  { db := [shareT], store := [], staging := [(1, [4])] }

/-- Server state whose token directory already contains `"a.txt"` with
contents `[7]`. -/
def stOv : SrvState :=
  { db := [shareU], store := [("t", [("a.txt", [7])])], staging := [] }

/-- The per-directory loop is the filter/count by `sweepKeeps`. -/
lemma sweepDirs_eq (now : Nat) (db : List FileShare) (dirs : List String) :
    sweepDirs now db dirs =
      (dirs.filter (sweepKeeps now db),
       dirs.countP (fun t => ! sweepKeeps now db t)) := by
  induction dirs with
  | nil => rfl
  | cons t rest ih =>
    simp only [sweepDirs, ih, List.filter_cons, List.countP_cons]
    cases h : FileShare.get (.ok db) t with
    | none => simp [sweepKeeps, h]
    | some s => cases he : s.is_expired now <;> simp [sweepKeeps, h, he]

/-- C2: a share whose recipient is empty is never reported as expired, at
every instant and for every stored `expires_at` value. -/
theorem no_recipient_never_expires (s : FileShare) (now : Nat)
    (h : s.recipient_email = "") : s.is_expired now = false := by
  simp [FileShare.is_expired, h]

/-- Witness for C2: share (c) has no recipient and a stored `expires_at` of
50, yet at time 100 it is not expired. -/
theorem no_recipient_never_expires_witness :
    shareC.recipient_email = "" ∧ shareC.is_expired 100 = false :=
  ⟨rfl, no_recipient_never_expires shareC 100 rfl⟩

/-- C3 counterexample: share (c) has an empty recipient and `expires_at` in
the past (50 < 100); it is not expired per `is_expired`, yet `ListActive`
returns the empty list and the active count is 0 — the active projections
do not implement the never-expire-without-recipient rule. -/
theorem active_projection_counterexample :
    shareC.is_expired 100 = false ∧
    FileShare.get_all_active (.ok [shareC]) 100 = [] ∧
    FileShare.get_active_count (.ok [shareC]) 100 = 0 :=
  ⟨rfl, rfl, rfl⟩

/-- C3 (amended): the active projections select exactly the rows whose
stored `expires_at` is present and strictly in the future, independent of
recipient; the active count agrees with the active list; every share the
projections select is indeed not expired, but a share with an empty
recipient and a past `expires_at` is omitted despite never expiring. -/
theorem active_projection_spec :
    (∀ (rows : List FileShare) (now : Nat) (s : FileShare),
        s ∈ FileShare.get_all_active (.ok rows) now ↔
          s ∈ rows ∧ sqlActive now s = true) ∧
    (∀ (rows : List FileShare) (now : Nat),
        FileShare.get_active_count (.ok rows) now =
          (FileShare.get_all_active (.ok rows) now).length) ∧
    (∀ (s : FileShare) (now : Nat),
        sqlActive now s = true → s.is_expired now = false) := by
  refine ⟨fun rows now s => ?_, fun rows now => rfl, fun s now h => ?_⟩
  · simp [FileShare.get_all_active, List.mem_filter]
  · unfold sqlActive at h
    unfold FileShare.is_expired
    cases he : s.expires_at with
    | none => simp
    | some e =>
      rw [he] at h
      have : now < e := of_decide_eq_true h
      simp only [he]
      split
      · rfl
      · simpa using Nat.not_lt.mpr (Nat.le_of_lt this)

/-- Witness for C3 (amended): share (b) is selected by the projection over
the three-share registry at time 100, and is not expired there. -/
theorem active_projection_spec_witness :
    shareB ∈ FileShare.get_all_active (.ok sweepDb) 100 ∧
    shareB.is_expired 100 = false :=
  ⟨(active_projection_spec.1 sweepDb 100 shareB).mpr ⟨by decide, rfl⟩,
   active_projection_spec.2.2 shareB 100 rfl⟩

/-- C1 counterexample: sweeping the store {(a) expired with recipient,
(b) active, (c) pending no-recipient with past `expires_at`, (d) orphan
directory} at time 100 removes exactly the directories of (a) and (d) —
but the registry afterwards still contains (a)'s record, contradicting
"both the directory and the registry record are deleted". -/
theorem cleanup_keeps_registry_record_counterexample :
    shareA.is_expired 100 = true ∧
    (cleanup_expired_files 100 sweepDb sweepStore).1 = ["b", "c"] ∧
    shareA ∈ (cleanup_expired_files 100 sweepDb sweepStore).2.1 := by
  refine ⟨rfl, by decide, by decide⟩

/-- C1 (amended): an eviction sweep keeps exactly the directories whose
token has a registry record that is not expired (records with an empty
file list included); a directory with no record, or with an expired
record, is deleted, and the deleted count is the number of such
directories — but the registry rows are returned unchanged: the sweep
never deletes a registry record.  On the four-share scenario at time 100
it removes exactly the directories of (a) and (d). -/
theorem cleanup_sweep_spec :
    (∀ (now : Nat) (db : List FileShare) (dirs : List String),
        cleanup_expired_files now db dirs =
          (dirs.filter (sweepKeeps now db), db,
           dirs.countP (fun t => ! sweepKeeps now db t))) ∧
    cleanup_expired_files 100 sweepDb sweepStore = (["b", "c"], sweepDb, 2) := by
  constructor
  · intro now db dirs
    unfold cleanup_expired_files
    rw [sweepDirs_eq]
  · decide

/-- C8: `mark_file_downloaded` is idempotent — marking the same filename
twice leaves `downloaded_files` with exactly one entry for it (given the
set had at most one to start with, as the operation itself guarantees) and
does not change `download_count`; `mark_download_attempt` does not change
`download_count` either; only `mark_downloaded` increments it, and it also
sets `last_download_completed`. -/
theorem mark_file_downloaded_idempotent (s : FileShare) (f : String)
    (now : Nat) (h : s.downloaded_files.count f ≤ 1) :
    (s.mark_file_downloaded f).mark_file_downloaded f =
      s.mark_file_downloaded f ∧
    ((s.mark_file_downloaded f).mark_file_downloaded f).downloaded_files.count f
      = 1 ∧
    ((s.mark_file_downloaded f).mark_file_downloaded f).download_count =
      s.download_count ∧
    (s.mark_download_attempt now).download_count = s.download_count ∧
    (s.mark_downloaded now).download_count = s.download_count + 1 ∧
    (s.mark_downloaded now).last_download_completed = some now := by
  by_cases hf : f ∈ s.downloaded_files
  · have h1 : s.downloaded_files.count f = 1 :=
      Nat.le_antisymm h (List.count_pos_iff.mpr hf)
    refine ⟨?_, ?_, ?_, rfl, rfl, rfl⟩ <;>
      simp [FileShare.mark_file_downloaded, hf, h1]
  · have h0 : s.downloaded_files.count f = 0 := by
      simpa [List.count_eq_zero] using hf
    have hmem : f ∈ s.downloaded_files ++ [f] := by simp
    refine ⟨?_, ?_, ?_, rfl, rfl, rfl⟩ <;>
      simp [FileShare.mark_file_downloaded, hf, hmem, h0]

/-- Witness for C8: marking `"x"` twice on share (c) (whose
`downloaded_files` is empty) yields exactly one entry and is idempotent. -/
theorem mark_file_downloaded_idempotent_witness :
    ((shareC.mark_file_downloaded "x").mark_file_downloaded
        "x").downloaded_files.count "x" = 1 ∧
    (shareC.mark_file_downloaded "x").mark_file_downloaded "x" =
      shareC.mark_file_downloaded "x" :=
  ⟨(mark_file_downloaded_idempotent shareC "x" 0 (by decide)).2.1,
   (mark_file_downloaded_idempotent shareC "x" 0 (by decide)).1⟩

/-- C9 counterexample: a `Get` whose backing-store read raises returns
`none`, exactly the value returned when the token does not exist — a
storage error is not surfaced as an error and is indistinguishable from
`NotFound`. -/
theorem get_storage_error_counterexample :
    FileShare.get .err "t" = none ∧
    FileShare.get (.ok []) "t" = none ∧
    FileShare.get .err "t" = FileShare.get (.ok []) "t" :=
  ⟨rfl, rfl, rfl⟩

/-- C9 (amended): persistence errors in `Get`, the active projections and
`mark_downloaded` are caught and swallowed rather than surfaced: `Get`
returns `none` (the `NotFound` value), `ListActive` returns the empty
list, the active count returns 0, and `mark_downloaded` leaves the
backing rows unchanged while still mutating the in-memory object. -/
theorem storage_error_swallowed_spec :
    (∀ t, FileShare.get .err t = none) ∧
    (∀ now, FileShare.get_all_active .err now = []) ∧
    (∀ now, FileShare.get_active_count .err now = 0) ∧
    (∀ (s : FileShare) (now : Nat) (db : List FileShare),
        FileShare.mark_downloaded_db s now false db =
          ({ s with downloaded := true,
                    download_count := s.download_count + 1 }, db)) :=
  ⟨fun _ => rfl, fun _ => rfl, fun _ => rfl, fun _ _ _ => rfl⟩

/-- C10: deleting a token with no directory and no registry record succeeds
(returns `true`) and leaves store and registry unchanged, for any state of
the `rmtree` fault flag (the removal is skipped); and the operation reports
`false` only when the file removal or the database delete raises. -/
theorem delete_by_token_missing_ok :
    (∀ (rmF : Bool) (dirs : List String) (db : List FileShare) (token : String),
        token ∉ dirs → (∀ r ∈ db, r.token ≠ token) →
        FileShare.delete_by_token rmF false dirs db token = (dirs, db, true)) ∧
    (∀ (rmF dbF : Bool) (dirs : List String) (db : List FileShare)
        (token : String),
        (FileShare.delete_by_token rmF dbF dirs db token).2.2 = false →
        rmF = true ∨ dbF = true) := by
  constructor
  · intro rmF dirs db token hdir hdb
    unfold FileShare.delete_by_token
    rw [if_neg hdir, if_neg (by simp)]
    have : db.filter (fun r => r.token ≠ token) = db :=
      List.filter_eq_self.mpr (fun r hr => by simpa using hdb r hr)
    rw [this]
  · intro rmF dbF dirs db token h
    unfold FileShare.delete_by_token at h
    cases rmF <;> cases dbF <;> simp_all <;> split at h <;> simp_all

/-- Witness for C10: deleting the never-created token `"zzz"` from a store
holding only directory `"x"` and a registry holding only share (b)
succeeds and changes nothing. -/
theorem delete_by_token_missing_ok_witness :
    FileShare.delete_by_token false false ["x"] [shareB] "zzz" =
      (["x"], [shareB], true) :=
  delete_by_token_missing_ok.1 false ["x"] [shareB] "zzz" (by decide)
    (by decide)

/-! ### Decimal digits: `Nat.repr` is the big-endian digit string -/

/-- With enough fuel, `Nat.toDigitsCore` prepends the decimal digits. -/
lemma toDigitsCore_eq_natDigits (fuel : Nat) :
    ∀ (n : Nat) (ds : List Char), n < fuel →
      Nat.toDigitsCore 10 fuel n ds = natDigits n ++ ds := by
  induction fuel with
  | zero => intro n ds h; omega
  | succ f ih =>
    intro n ds h
    simp only [Nat.toDigitsCore]
    by_cases h10 : n / 10 = 0
    · have hn : n < 10 := by omega
      rw [if_pos h10, natDigits, if_pos hn, Nat.mod_eq_of_lt hn]
      rfl
    · have hn : ¬ n < 10 := by omega
      rw [if_neg h10, ih (n / 10) _ (by omega)]
      conv_rhs => rw [natDigits, if_neg hn]
      rw [List.append_assoc]
      rfl

/-- Reading a single produced digit back. -/
lemma digitChar_toNat (d : Nat) (h : d < 10) :
    (Nat.digitChar d).toNat - 48 = d := by
  interval_cases d <;> decide

/-- A produced digit is an ASCII digit. -/
lemma digitChar_isDigit (d : Nat) (h : d < 10) :
    (Nat.digitChar d).isDigit = true := by
  interval_cases d <;> decide

/-- The decimal digit string evaluates back to its number. -/
lemma digitsVal_natDigits (n : Nat) : digitsVal (natDigits n) = n := by
  induction n using Nat.strong_induction_on with
  | _ n ih =>
    by_cases h : n < 10
    · rw [natDigits, if_pos h]
      show 10 * 0 + ((Nat.digitChar n).toNat - 48) = n
      rw [digitChar_toNat n h]
      omega
    · rw [natDigits, if_neg h]
      show (natDigits (n / 10) ++ [Nat.digitChar (n % 10)]).foldl _ 0 = n
      rw [List.foldl_append]
      show 10 * digitsVal (natDigits (n / 10)) +
        ((Nat.digitChar (n % 10)).toNat - 48) = n
      rw [ih (n / 10) (by omega), digitChar_toNat (n % 10) (by omega)]
      omega

/-- `Nat.repr` produces exactly the digit string of `natDigits`. -/
lemma natRepr_eq (n : Nat) : Nat.repr n = (natDigits n).asString := by
  show (Nat.toDigits 10 n).asString = _
  rw [Nat.toDigits, toDigitsCore_eq_natDigits (n + 1) n [] (by omega),
    List.append_nil]

/-- Decimal representations of distinct numbers are distinct. -/
lemma natRepr_injective : Function.Injective Nat.repr := by
  intro a b h
  rw [natRepr_eq, natRepr_eq] at h
  have hd : natDigits a = natDigits b := congrArg String.data h
  have := congrArg digitsVal hd
  rwa [digitsVal_natDigits, digitsVal_natDigits] at this

/-- Every character of `Nat.repr` is an ASCII digit. -/
lemma natDigits_isDigit (n : Nat) : ∀ c ∈ natDigits n, c.isDigit = true := by
  induction n using Nat.strong_induction_on with
  | _ n ih =>
    by_cases h : n < 10
    · rw [natDigits, if_pos h]
      intro c hc
      rw [List.mem_singleton] at hc
      subst hc
      exact digitChar_isDigit n h
    · rw [natDigits, if_neg h]
      intro c hc
      rcases List.mem_append.mp hc with h1 | h2
      · exact ih (n / 10) (by omega) c h1
      · rw [List.mem_singleton] at h2
        subst h2
        exact digitChar_isDigit (n % 10) (by omega)

/-! ### `secure_filename` output shape -/

/-- ASCII digits are in the kept character class. -/
lemma allowedChar_of_isDigit (c : Char) (h : c.isDigit = true) :
    allowedChar c = true := by
  simp [allowedChar, Char.isAlphanum, h]

/-- ASCII digits are not in the strip set `"._"`. -/
lemma dotUnderscore_of_isDigit (c : Char) (h : c.isDigit = true) :
    dotUnderscore c = false := by
  unfold dotUnderscore
  by_cases h1 : c = '.'
  · subst h1; exact absurd h (by decide)
  by_cases h2 : c = '_'
  · subst h2; exact absurd h (by decide)
  simp [h1, h2]

/-- The kept character class contains no path separator. -/
lemma ne_slash_of_allowed (c : Char) (h : allowedChar c = true) : c ≠ '/' := by
  intro he
  subst he
  exact absurd h (by decide)

/-- Stripping only removes characters. -/
lemma mem_of_mem_stripChars {bad : Char → Bool} {l : List Char} {c : Char}
    (hc : c ∈ stripChars bad l) : c ∈ l := by
  unfold stripChars at hc
  rw [List.mem_reverse] at hc
  have h1 : c ∈ (l.dropWhile bad).reverse :=
    (List.dropWhile_sublist _).subset hc
  rw [List.mem_reverse] at h1
  exact (List.dropWhile_sublist _).subset h1

/-- The strip result extends to the left-stripped list. -/
lemma stripChars_append_eq (bad : Char → Bool) (l : List Char) :
    stripChars bad l ++ ((l.dropWhile bad).reverse.takeWhile bad).reverse =
      l.dropWhile bad := by
  calc stripChars bad l ++ ((l.dropWhile bad).reverse.takeWhile bad).reverse
      = ((l.dropWhile bad).reverse.takeWhile bad ++
          (l.dropWhile bad).reverse.dropWhile bad).reverse := by
        rw [List.reverse_append]; rfl
    _ = (l.dropWhile bad).reverse.reverse := by
        rw [List.takeWhile_append_dropWhile]
    _ = l.dropWhile bad := List.reverse_reverse _

/-- The head surviving `dropWhile` refutes the predicate. -/
lemma dropWhile_head_false {α : Type} {p : α → Bool} :
    ∀ {l : List α} {c : α} {rest : List α},
      l.dropWhile p = c :: rest → p c = false := by
  intro l
  induction l with
  | nil => intro c rest h; simp [List.dropWhile] at h
  | cons a as ih =>
    intro c rest h
    rw [List.dropWhile_cons] at h
    split at h
    · exact ih h
    · cases h
      simp_all

/-- The head of a stripped list refutes the strip predicate. -/
lemma stripChars_head_false {bad : Char → Bool} {l : List Char} {c : Char}
    {rest : List Char} (h : stripChars bad l = c :: rest) : bad c = false := by
  have key := stripChars_append_eq bad l
  rw [h] at key
  exact dropWhile_head_false key.symm

/-- A non-empty `secure_filename` output is a good name: non-empty, only
kept characters, head not in the strip set. -/
lemma goodName_secure (raw : String) (h : secure_filename raw ≠ "") :
    goodName (secure_filename raw) := by
  refine ⟨?_, ?_, ?_⟩
  · intro hd
    apply h
    show (stripChars dotUnderscore _).asString = ""
    have : stripChars dotUnderscore
        ((List.intercalate ['_']
          (splitWs (raw.data.map (fun c => if c = '/' then ' ' else c)))).filter
            allowedChar) = [] := hd
    rw [this]
    rfl
  · intro c hc
    exact List.of_mem_filter (mem_of_mem_stripChars hc)
  · intro c rest hd
    exact stripChars_head_false hd

/-- A good name is a safe path component: non-empty, no `'/'`, not a dot
component. -/
lemma safeComponent_of_goodName {s : String} (h : goodName s) :
    safeComponent s = true := by
  obtain ⟨h1, h2, h3⟩ := h
  cases hd : s.data with
  | nil => exact absurd hd h1
  | cons c rest =>
    have hc := h3 c rest hd
    have hcdot : c ≠ '.' := by
      intro he
      subst he
      exact absurd hc (by decide)
    have hne1 : s ≠ "." := by
      intro he
      rw [he] at hd
      cases hd
      exact hcdot rfl
    have hne2 : s ≠ ".." := by
      intro he
      rw [he] at hd
      cases hd
      exact hcdot rfl
    have hall : s.data.all (fun x => x ≠ '/') = true := by
      rw [List.all_eq_true]
      intro x hx
      exact decide_eq_true (ne_slash_of_allowed x (h2 x hx))
    simp [safeComponent, hd, hne1, hne2, List.all_eq_true] at *
    exact hall

/-! ### `splitext`, candidate names and the collision loop -/

/-- `splitextList` splits its input into stem and extension; the stem is
non-empty for non-empty input and starts with the input's head. -/
lemma splitextList_parts (l : List Char) :
    (splitextList l).1 ++ (splitextList l).2 = l ∧
    (l ≠ [] → (splitextList l).1 ≠ []) ∧
    (∀ c rest, l = c :: rest → ∃ r2, (splitextList l).1 = c :: r2) := by
  cases hidx : l.reverse.findIdx? (fun c => c = '.') with
  | none =>
    have heq : splitextList l = (l, []) := by
      unfold splitextList
      rw [hidx]
    rw [heq]
    exact ⟨List.append_nil l, fun h => h, fun c rest hd => ⟨rest, hd⟩⟩
  | some k =>
    have heq : splitextList l =
        if (l.take (l.length - 1 - k)).all (fun c => c = '.') then (l, [])
        else (l.take (l.length - 1 - k), l.drop (l.length - 1 - k)) := by
      unfold splitextList
      rw [hidx]
    by_cases hall : (l.take (l.length - 1 - k)).all (fun c => c = '.')
    · rw [heq, if_pos hall]
      exact ⟨List.append_nil l, fun h => h, fun c rest hd => ⟨rest, hd⟩⟩
    · rw [heq, if_neg hall]
      have htne : l.take (l.length - 1 - k) ≠ [] := by
        intro he
        apply hall
        rw [he]
        rfl
      refine ⟨List.take_append_drop _ l, fun _ => htne, ?_⟩
      intro c rest hd
      cases hdd : l.length - 1 - k with
      | zero => rw [hdd] at htne; simp at htne
      | succ d0 =>
        rw [hd, List.take_succ_cons]
        exact ⟨rest.take d0, rfl⟩

/-- Reading the characters back out of `List.asString`. -/
lemma asString_data (l : List Char) : (List.asString l).data = l := rfl

/-- A candidate `f"{stem}_{counter}{ext}"` built from the split of a good
name is itself a good name. -/
lemma goodName_mkCand {f : String} (hf : goodName f) (counter : Nat) :
    goodName (mkCand (splitext f).1 (splitext f).2 counter) := by
  obtain ⟨h1, h2, h3⟩ := hf
  obtain ⟨hsum, hne, hhead⟩ := splitextList_parts f.data
  have hS : (splitextList f.data).1 ≠ [] := hne h1
  have hdata : (mkCand (splitext f).1 (splitext f).2 counter).data =
      ((((splitextList f.data).1 ++ "_".data) ++ (Nat.repr counter).data) ++
        (splitextList f.data).2) := by
    simp [mkCand, splitext, asString_data]
  have hmem : ∀ c ∈ (mkCand (splitext f).1 (splitext f).2 counter).data,
      allowedChar c = true := by
    intro c hc
    rw [hdata] at hc
    rcases List.mem_append.mp hc with hc1 | hcE
    · rcases List.mem_append.mp hc1 with hc2 | hcR
      · rcases List.mem_append.mp hc2 with hcS | hcU
        · exact h2 c (by rw [← hsum]; exact List.mem_append_left _ hcS)
        · have : c = '_' := by simpa using hcU
          subst this
          decide
      · have : c ∈ natDigits counter := by
          have := hcR
          rw [natRepr_eq] at this
          exact this
        exact allowedChar_of_isDigit c (natDigits_isDigit counter c this)
    · exact h2 c (by rw [← hsum]; exact List.mem_append_right _ hcE)
  refine ⟨?_, hmem, ?_⟩
  · rw [hdata]
    cases hScons : (splitextList f.data).1 with
    | nil => exact absurd hScons hS
    | cons a as => simp
  · intro c rest hd
    rw [hdata] at hd
    cases hScons : (splitextList f.data).1 with
    | nil => exact absurd hScons hS
    | cons a as =>
      rw [hScons] at hd
      have hac : a = c := by
        simpa using congrArg (fun l => l.head?) hd
      subst hac
      exact h3 a _ (by rw [← hsum, hScons]; rfl)

/-- The collision loop always returns one of the candidate names. -/
lemma collideName_mkCand (existing : List String) (stem ext : String) :
    ∀ (fuel counter : Nat),
      ∃ c, collideName existing stem ext counter fuel = mkCand stem ext c := by
  intro fuel
  induction fuel with
  | zero => intro counter; exact ⟨counter, rfl⟩
  | succ f ih =>
    intro counter
    simp only [collideName]
    by_cases h : mkCand stem ext counter ∈ existing
    · rw [if_pos h]
      exact ih (counter + 1)
    · rw [if_neg h]
      exact ⟨counter, rfl⟩

/-- Collision resolution preserves good names. -/
lemma goodName_resolve (existing : List String) {f : String}
    (hf : goodName f) : goodName (resolve_collision existing f) := by
  unfold resolve_collision
  by_cases h : f ∈ existing
  · rw [if_pos h]
    obtain ⟨c, hc⟩ :=
      collideName_mkCand existing (splitext f).1 (splitext f).2
        (existing.length + 1) 1
    rw [hc]
    exact goodName_mkCand hf c
  · rw [if_neg h]
    exact hf

/-- Distinct counters give distinct candidate names. -/
lemma mkCand_injective (stem ext : String) :
    Function.Injective (mkCand stem ext) := by
  intro a b h
  have hd := congrArg String.data h
  simp only [mkCand, String.data_append, List.append_assoc] at hd
  have h2 := List.append_cancel_left hd
  have h3 := List.append_cancel_left h2
  have h4 := List.append_cancel_right h3
  have h5 : Nat.repr a = Nat.repr b := by
    rw [natRepr_eq, natRepr_eq] at h4 ⊢
    rw [show natDigits a = natDigits b from h4]
  exact natRepr_injective h5

/-- If fewer collisions than fuel remain among the upcoming candidates,
the loop lands on a free name. -/
lemma collideName_fresh (existing : List String) (stem ext : String) :
    ∀ (fuel counter : Nat),
      ((List.range fuel).map (fun k => mkCand stem ext (counter + k))).countP
          (fun x => x ∈ existing) < fuel →
      collideName existing stem ext counter fuel ∉ existing := by
  intro fuel
  induction fuel with
  | zero => intro counter h; omega
  | succ f ih =>
    intro counter h
    simp only [collideName]
    by_cases hc : mkCand stem ext counter ∈ existing
    · rw [if_pos hc]
      apply ih (counter + 1)
      rw [List.range_succ_eq_map] at h
      simp only [List.map_cons, List.map_map, List.countP_cons] at h
      have he : ((fun k => mkCand stem ext (counter + k)) ∘ Nat.succ) =
          (fun k => mkCand stem ext (counter + 1 + k)) := by
        funext k
        show mkCand stem ext (counter + (k + 1)) = _
        congr 1
        omega
      rw [he] at h
      rw [if_pos (decide_eq_true
        (show mkCand stem ext (counter + 0) ∈ existing by
          simpa using hc))] at h
      omega
    · rw [if_neg hc]
      exact hc

/-- Collision resolution over a duplicate-free directory listing returns a
name that is not yet taken (the source loop runs until `os.path.exists`
fails; the fuel `existing.length + 1` always suffices by pigeonhole: the
candidates are pairwise distinct, so at most `existing.length` of them can
collide). -/
lemma resolve_collision_fresh (existing : List String) (filename : String) :
    resolve_collision existing filename ∉ existing := by
  unfold resolve_collision
  by_cases hmem : filename ∈ existing
  · rw [if_pos hmem]
    apply collideName_fresh
    set g := fun k => mkCand (splitext filename).1 (splitext filename).2
      (1 + k) with hg
    set C := (List.range (existing.length + 1)).map g with hC
    have hginj : Function.Injective g := by
      intro a b hab
      have := mkCand_injective (splitext filename).1 (splitext filename).2 hab
      omega
    have hnodC : C.Nodup := List.Nodup.map hginj (List.nodup_range _)
    have hlenC : C.length = existing.length + 1 := by
      rw [hC, List.length_map, List.length_range]
    have h1 : C.countP (fun x => decide (x ∈ existing)) ≤ C.length :=
      List.countP_le_length _
    by_contra hge
    push_neg at hge
    have heq : C.countP (fun x => decide (x ∈ existing)) = C.length := by
      omega
    have hsub : C ⊆ existing := by
      intro x hx
      exact of_decide_eq_true (List.countP_eq_length.mp heq x hx)
    have hle := (hnodC.subperm hsub).length_le
    omega
  · rw [if_neg hmem]
    exact hmem

/-! ### Association-list store helpers -/

/-- Appending on the right never changes an existing binding. -/
lemma getEntry_append_left {κ α : Type} [DecidableEq κ]
    (l l2 : List (κ × α)) (k : κ) (v : α) (h : getEntry l k = some v) :
    getEntry (l ++ l2) k = some v := by
  induction l with
  | nil => simp [getEntry] at h
  | cons e rest ih =>
    rw [List.cons_append]
    by_cases he : e.1 = k
    · rw [getEntry, if_pos he] at h ⊢
      exact h
    · rw [getEntry, if_neg he] at h ⊢
      exact ih h

/-- Writing a binding makes it readable. -/
lemma getEntry_setEntry_self {κ α : Type} [DecidableEq κ]
    (l : List (κ × α)) (k : κ) (v : α) :
    getEntry (setEntry l k v) k = some v := by
  induction l with
  | nil => simp [setEntry, getEntry]
  | cons e rest ih =>
    by_cases he : e.1 = k
    · rw [setEntry, if_pos he, getEntry, if_pos rfl]
    · rw [setEntry, if_neg he, getEntry, if_neg he]
      exact ih

/-- Overwriting an existing binding does not add a name. -/
lemma setEntry_keys_of_mem {κ α : Type} [DecidableEq κ]
    (l : List (κ × α)) (k : κ) (v : α) (h : k ∈ l.map Prod.fst) :
    (setEntry l k v).map Prod.fst = l.map Prod.fst := by
  induction l with
  | nil => simp at h
  | cons e rest ih =>
    by_cases he : e.1 = k
    · rw [setEntry, if_pos he, List.map_cons, List.map_cons, he]
    · have h2 : k ∈ rest.map Prod.fst := by
        rcases List.mem_cons.mp
            (show k ∈ e.1 :: rest.map Prod.fst from by simpa using h) with
          h1 | h1
        · exact absurd h1 (fun hh => he hh.symm)
        · exact h1
      rw [setEntry, if_neg he, List.map_cons, List.map_cons, ih h2]

/-- `save_uploaded_files` only appends to the token directory. -/
lemma save_dir_extends (u tok : String) :
    ∀ (files dir : List (String × Bytes)),
      ∃ t, (save_uploaded_files u tok files dir).1 = dir ++ t := by
  intro files
  induction files with
  | nil => intro dir; exact ⟨[], by simp [save_uploaded_files]⟩
  | cons f rest ih =>
    intro dir
    simp only [save_uploaded_files]
    by_cases h1 : f.1 = ""
    · rw [if_pos h1]
      exact ih dir
    · rw [if_neg h1]
      by_cases h2 : secure_filename f.1 = ""
      · rw [if_pos h2]
        exact ih dir
      · rw [if_neg h2]
        obtain ⟨t, ht⟩ := ih
          (dir ++ [(resolve_collision (dir.map Prod.fst)
            (secure_filename f.1), f.2)])
        refine ⟨(resolve_collision (dir.map Prod.fst)
          (secure_filename f.1), f.2) :: t, ?_⟩
        rw [ht, List.append_assoc]
        rfl

/-! ### Assembly and `upload_chunk` branch equations -/

/-- `range(1, n+1)` is empty exactly for non-positive `n`. -/
lemma chunkIndices_nonpos {n : Int} (h : n ≤ 0) : chunkIndices n = [] := by
  unfold chunkIndices
  rw [Int.toNat_eq_zero.mpr h]
  rfl

/-- The assembly fold over a missing accumulator stays missing. -/
lemma assemble_fold_none (s : List (Int × Bytes)) (idx : List Int) :
    idx.foldl
      (fun acc i =>
        match acc, getEntry s i with
        | some bs, some chunk => some (bs ++ chunk)
        | _, _ => none) none = none := by
  induction idx with
  | nil => rfl
  | cons i rest ih => exact ih

/-- A successful assembly fold concatenates the chunks in index order. -/
lemma assemble_fold_eq (s : List (Int × Bytes)) :
    ∀ (idx : List Int) (acc b : Bytes),
      idx.foldl
        (fun acc i =>
          match acc, getEntry s i with
          | some bs, some chunk => some (bs ++ chunk)
          | _, _ => none) (some acc) = some b →
      b = acc ++ (idx.map (fun j => (getEntry s j).getD [])).flatten := by
  intro idx
  induction idx with
  | nil =>
    intro acc b h
    simp only [List.foldl_nil, Option.some_inj] at h
    simp [← h]
  | cons i rest ih =>
    intro acc b h
    rw [List.foldl_cons] at h
    cases hg : getEntry s i with
    | none =>
      rw [hg] at h
      rw [show (match some acc, (none : Option Bytes) with
          | some bs, some chunk => some (bs ++ chunk)
          | _, _ => none) = none from rfl] at h
      rw [assemble_fold_none] at h
      cases h
    | some c =>
      rw [hg] at h
      rw [show (match some acc, some c with
          | some bs, some chunk => some (bs ++ chunk)
          | (_ : Option Bytes), _ => none) = some (acc ++ c) from rfl] at h
      have := ih (acc ++ c) b h
      rw [this, List.map_cons, List.flatten_cons, hg]
      simp [List.append_assoc]

/-- A successful `assemble` is the concatenation of the staged chunks
`1..n` in index order. -/
lemma assemble_eq_flatten {s : List (Int × Bytes)} {n : Int} {b : Bytes}
    (h : assemble s n = some b) :
    b = ((chunkIndices n).map (fun j => (getEntry s j).getD [])).flatten := by
  have := assemble_fold_eq s (chunkIndices n) [] b h
  simpa using this

/-- An assembly over all-present chunks succeeds (used to discharge
hypotheses at concrete inputs). -/
lemma assemble_nonpos (n : Int) (s : List (Int × Bytes)) (h : n ≤ 0) :
    assemble s n = some [] := by
  unfold assemble
  rw [chunkIndices_nonpos h]
  rfl

/-- Branch equation: a chunk whose index differs from the total is staged
and acknowledged `{done: false}`. -/
lemma upload_chunk_pending (st : SrvState) (i n : Int) (raw tok : String)
    (data : Bytes) (share : FileShare)
    (hget : FileShare.get (.ok st.db) tok = some share) (hne : i ≠ n) :
    upload_chunk st i n raw tok data =
      ({ st with staging := setEntry st.staging i data }, .pending) := by
  unfold upload_chunk
  rw [hget]
  simp only [if_neg hne]

/-- Branch equation: the completing chunk with a failing assembly (or an
empty sanitized filename) raises; the handler answers 500 and the staged
chunks — including the one just saved — survive. -/
lemma upload_chunk_error (st : SrvState) (n : Int) (raw tok : String)
    (data : Bytes) (share : FileShare)
    (hget : FileShare.get (.ok st.db) tok = some share)
    (hasm : assemble (setEntry st.staging n data) n = none) :
    upload_chunk st n n raw tok data =
      ({ st with staging := setEntry st.staging n data }, .serverError) := by
  unfold upload_chunk
  rw [hget]
  simp only [eq_self_iff_true, if_true]
  by_cases hname : secure_filename raw = ""
  · rw [if_pos hname]
  · rw [if_neg hname, hasm]

/-- Branch equation: the completing chunk with a successful assembly
stores the blob under the sanitized name (replacing any existing file of
that name), records the name in the share's file list, clears staging
indices `1..n`, and answers `{done: true, token}`. -/
lemma upload_chunk_done (st : SrvState) (n : Int) (raw tok : String)
    (data : Bytes) (share : FileShare) (blob : Bytes)
    (hget : FileShare.get (.ok st.db) tok = some share)
    (hname : secure_filename raw ≠ "")
    (hasm : assemble (setEntry st.staging n data) n = some blob) :
    upload_chunk st n n raw tok data =
      ({ db := st.db.map (fun r =>
            if r.token = share.token then
              { r with files :=
                  if secure_filename raw ∈ share.files then share.files
                  else share.files ++ [secure_filename raw] }
            else r),
         store := setEntry st.store share.token
           (setEntry ((getEntry st.store share.token).getD [])
             (secure_filename raw) blob),
         staging := (setEntry st.staging n data).filter
           (fun e => e.1 ∉ chunkIndices n) },
       .done share.token) := by
  unfold upload_chunk
  rw [hget]
  simp only [eq_self_iff_true, if_true]
  rw [if_neg hname, hasm]

/-- C7: every filesystem path written by a save is
`UPLOAD_FOLDER/token/name` for a sanitized `name` that is non-empty, free
of path separators and not a dot component — no save escapes the token
directory; and sanitizing the traversal attempt `"../secret"` stores it
under its base name `"secret"`. -/
theorem save_path_safety :
    (∀ (folder token : String) (files dir0 : List (String × Bytes))
        (p : String),
        p ∈ (save_uploaded_files folder token files dir0).2.2 →
        ∃ name, p = folder ++ "/" ++ token ++ "/" ++ name ∧
          safeComponent name = true) ∧
    secure_filename "../secret" = "secret" := by
  constructor
  · intro folder token files
    induction files with
    | nil =>
      intro dir0 p hp
      simp [save_uploaded_files] at hp
    | cons f rest ih =>
      intro dir0 p hp
      simp only [save_uploaded_files] at hp
      by_cases h1 : f.1 = ""
      · rw [if_pos h1] at hp
        exact ih dir0 p hp
      · rw [if_neg h1] at hp
        by_cases h2 : secure_filename f.1 = ""
        · rw [if_pos h2] at hp
          exact ih dir0 p hp
        · rw [if_neg h2] at hp
          simp only [List.mem_cons] at hp
          rcases hp with rfl | hp2
          · exact ⟨resolve_collision (dir0.map Prod.fst)
              (secure_filename f.1), rfl,
              safeComponent_of_goodName
                (goodName_resolve _ (goodName_secure f.1 h2))⟩
          · exact ih _ p hp2
  · decide

/-- Witness for C7: saving the traversal filename `"../secret"` writes
exactly one path, `uploads/tok/secret`, whose final component is the safe
base name. -/
theorem save_path_safety_witness :
    ∃ name, ("uploads/tok/secret" : String) =
      "uploads" ++ "/" ++ "tok" ++ "/" ++ name ∧
      safeComponent name = true :=
  save_path_safety.1 "uploads" "tok" [("../secret", [1])] []
    "uploads/tok/secret" (by decide)

/-- C4 counterexample: with an empty staging area and `totalChunks = 2`,
delivering chunk 2 first makes staging hold only index 2 — the claim
demands `{done: false}`, but the handler attempts assembly (because
`chunkNumber == totalChunks`) and answers 500; delivering chunk 1 next
makes staging hold all of `1..2` — the claim demands `{done: true}`, but
the handler answers `{done: false}`. -/
theorem upload_chunk_out_of_order_counterexample :
    (upload_chunk st0 2 2 "a.txt" "t" [5]).2 = .serverError ∧
    getEntry (upload_chunk st0 2 2 "a.txt" "t" [5]).1.staging 1 = none ∧
    (upload_chunk (upload_chunk st0 2 2 "a.txt" "t" [5]).1 1 2 "a.txt" "t"
        [4]).2 = .pending ∧
    (∀ j ∈ chunkIndices 2,
        (getEntry (upload_chunk (upload_chunk st0 2 2 "a.txt" "t" [5]).1 1 2
            "a.txt" "t" [4]).1.staging j).isSome = true) := by
  decide

/-- C4 (amended): for a valid share token, a chunk whose index differs
from `totalChunks` is persisted and acknowledged `{done: false}` whether
or not staging is complete; assembly is attempted exactly when
`chunkNumber = totalChunks`: if all of `1..n` are then staged the
response is `{done: true, token}` and the stored blob is the
concatenation of the staged chunks in index order, otherwise the request
fails with a 500 and staging (including the new chunk) is retained. -/
theorem upload_chunk_protocol (st : SrvState) (i n : Int)
    (raw tok : String) (data : Bytes) (share : FileShare)
    (hget : FileShare.get (.ok st.db) tok = some share) :
    (i ≠ n → upload_chunk st i n raw tok data =
        ({ st with staging := setEntry st.staging i data }, .pending)) ∧
    (i = n → secure_filename raw ≠ "" →
      ∀ blob, assemble (setEntry st.staging i data) n = some blob →
        (upload_chunk st i n raw tok data).2 = .done share.token ∧
        getEntry ((getEntry (upload_chunk st i n raw tok data).1.store
            share.token).getD []) (secure_filename raw) = some blob ∧
        blob = ((chunkIndices n).map
          (fun j => (getEntry (setEntry st.staging i data) j).getD
            [])).flatten) ∧
    (i = n → assemble (setEntry st.staging i data) n = none →
        upload_chunk st i n raw tok data =
          ({ st with staging := setEntry st.staging i data },
           .serverError)) := by
  refine ⟨fun hne => upload_chunk_pending st i n raw tok data share hget hne,
    fun heq hname blob hasm => ?_, fun heq hasm => ?_⟩
  · subst heq
    rw [upload_chunk_done st i raw tok data share blob hget hname hasm]
    refine ⟨rfl, ?_, assemble_eq_flatten hasm⟩
    rw [getEntry_setEntry_self]
    rw [Option.getD_some]
    exact getEntry_setEntry_self _ _ _
  · subst heq
    exact upload_chunk_error st i raw tok data share hget hasm

/-- Witness for C4 (amended): with chunk 1 already staged, delivering
chunk 2 of 2 completes and stores the in-order concatenation. -/
theorem upload_chunk_protocol_witness :
    (upload_chunk stHalf 2 2 "a.txt" "t" [5]).2 = .done "t" ∧
    getEntry ((getEntry (upload_chunk stHalf 2 2 "a.txt" "t" [5]).1.store
        "t").getD []) (secure_filename "a.txt") = some [4, 5] :=
  have h := (upload_chunk_protocol stHalf 2 2 "a.txt" "t" [5] shareT
    rfl).2.1 rfl (by decide) [4, 5] (by decide)
  ⟨h.1, h.2.1⟩

/-- C6 counterexample: a request for chunk 3 of 2 (index exceeding the
total) is not rejected: the handler persists the chunk under index 3 and
answers the 200 response `{done: false}` — there is no `InvalidChunkIndex`
validation. -/
theorem invalid_chunk_index_counterexample :
    (upload_chunk st0 3 2 "a.txt" "t" [9]).2 = .pending ∧
    getEntry (upload_chunk st0 3 2 "a.txt" "t" [9]).1.staging 3 =
      some [9] := by
  decide

/-- C6 (amended): no chunk-index validation is performed: an index greater
than the total is persisted and acknowledged `{done: false}`; a request
with `totalChunks ≤ 0` whose index equals the total triggers assembly over
the empty index range, storing an empty file and answering
`{done: true, token}`. -/
theorem chunk_index_validation_spec (st : SrvState) (i n : Int)
    (raw tok : String) (data : Bytes) (share : FileShare)
    (hget : FileShare.get (.ok st.db) tok = some share) :
    (n < i → upload_chunk st i n raw tok data =
        ({ st with staging := setEntry st.staging i data }, .pending)) ∧
    (n ≤ 0 → i = n → secure_filename raw ≠ "" →
        (upload_chunk st i n raw tok data).2 = .done share.token ∧
        getEntry ((getEntry (upload_chunk st i n raw tok data).1.store
            share.token).getD []) (secure_filename raw) =
          some ([] : Bytes)) := by
  constructor
  · intro hlt
    exact upload_chunk_pending st i n raw tok data share hget (by omega)
  · intro hnp heq hname
    subst heq
    have hasm : assemble (setEntry st.staging i data) i = some [] :=
      assemble_nonpos i _ hnp
    rw [upload_chunk_done st i raw tok data share [] hget hname hasm]
    refine ⟨rfl, ?_⟩
    rw [getEntry_setEntry_self, Option.getD_some]
    exact getEntry_setEntry_self _ _ _

/-- Witness for C6 (amended): chunk 5 of 2 is accepted as pending, and a
request with `totalChunks = 0`, `chunkNumber = 0` stores an empty file and
reports completion. -/
theorem chunk_index_validation_spec_witness :
    upload_chunk st0 5 2 "a.txt" "t" [1] =
      ({ st0 with staging := setEntry st0.staging 5 [1] }, .pending) ∧
    (upload_chunk st0 0 0 "a.txt" "t" [1]).2 = .done "t" :=
  ⟨(chunk_index_validation_spec st0 5 2 "a.txt" "t" [1] shareT rfl).1
      (by decide),
   ((chunk_index_validation_spec st0 0 0 "a.txt" "t" [1] shareT rfl).2
      (by decide) rfl (by decide)).1⟩

/-- C5 counterexample: completing a single-chunk upload of `"a.txt"` into
a token directory that already holds `"a.txt"` (contents `[7]`) replaces
the existing file with the assembled bytes `[8, 9]` and creates no
`"a_1.txt"` — the chunked-assembly save overwrites instead of
collision-renaming. -/
theorem chunk_assembly_overwrites_counterexample :
    (upload_chunk stOv 1 1 "a.txt" "t" [8, 9]).2 = .done "t" ∧
    getEntry ((getEntry (upload_chunk stOv 1 1 "a.txt" "t" [8, 9]).1.store
        "t").getD []) "a.txt" = some [8, 9] ∧
    getEntry ((getEntry (upload_chunk stOv 1 1 "a.txt" "t" [8, 9]).1.store
        "t").getD []) "a_1.txt" = none := by
  decide

/-- C5 (amended): direct saves apply numeric-suffix collision renaming —
saving `"a.txt"` twice over an existing `"a.txt"` stores `"a_1.txt"` then
`"a_2.txt"`, the resolved name is never one already present in the
directory listing, and existing entries keep their contents; the
save performed when a chunked upload is assembled, however, moves the blob
onto the sanitized name and overwrites any existing file of that name. -/
theorem save_collision_spec :
    (save_uploaded_files "u" "t" [("a.txt", [1]), ("a.txt", [2])]
        [("a.txt", [0])]).2.1 = ["a_1.txt", "a_2.txt"] ∧
    (∀ (existing : List String) (filename : String),
        resolve_collision existing filename ∉ existing) ∧
    (∀ (u t : String) (files dir : List (String × Bytes)) (name : String)
        (v : Bytes), getEntry dir name = some v →
        getEntry (save_uploaded_files u t files dir).1 name = some v) ∧
    (∀ (st : SrvState) (n : Int) (raw tok : String) (data : Bytes)
        (share : FileShare) (blob old : Bytes),
        FileShare.get (.ok st.db) tok = some share →
        secure_filename raw ≠ "" →
        assemble (setEntry st.staging n data) n = some blob →
        getEntry ((getEntry st.store share.token).getD [])
            (secure_filename raw) = some old →
        getEntry ((getEntry (upload_chunk st n n raw tok data).1.store
            share.token).getD []) (secure_filename raw) = some blob) := by
  refine ⟨by decide, resolve_collision_fresh, ?_, ?_⟩
  · intro u t files dir name v h
    obtain ⟨tl, htl⟩ := save_dir_extends u t files dir
    rw [htl]
    exact getEntry_append_left _ _ _ _ h
  · intro st n raw tok data share blob old hget hname hasm hold
    rw [upload_chunk_done st n raw tok data share blob hget hname hasm]
    rw [getEntry_setEntry_self, Option.getD_some]
    exact getEntry_setEntry_self _ _ _

/-- Witness for C5 (amended): the resolved name for `"a.txt"` over
`["a.txt"]` is not `"a.txt"` itself, and the completing chunk over the
occupied directory stores the assembled `[8, 9]` under `"a.txt"`. -/
theorem save_collision_spec_witness :
    resolve_collision ["a.txt"] "a.txt" ∉ (["a.txt"] : List String) ∧
    getEntry ((getEntry (upload_chunk stOv 1 1 "a.txt" "t" [8, 9]).1.store
        "t").getD []) (secure_filename "a.txt") = some [8, 9] :=
  ⟨save_collision_spec.2.1 ["a.txt"] "a.txt",
   save_collision_spec.2.2.2 stOv 1 "a.txt" "t" [8, 9] shareU [8, 9] [7]
     rfl (by decide) (by decide) (by decide)⟩

end App
